import Mathlib

set_option maxHeartbeats 1000000

/-
Shallow embedding of src/simplecurses++.hh (namespace SimpleCurses).

The header defines Element, Text, Window and Screen over the curses
library.  Here each curses WINDOW surface is modelled as an unbounded
grid of characters (row, col) -> Char; a window of r rows and c cols
occupies cells [0, r) x [0, c) of its own grid.  Coordinates and
extents are the non-negative integers of the data model (all C++ ints
involved are non-negative in every reachable state modelled here, so
Nat arithmetic coincides with the C++ int/size_t arithmetic).

Curses primitives used by the header and their model:
  * derwin(orig, nlines, ncols, begin_y, begin_x): creates a
    sub-window; a zero extent defaults to "up to the parent's edge";
    returns NULL when the requested rectangle does not fit inside the
    parent's real rectangle.  The header never checks for NULL, so a
    NULL result is modelled as an "undefined behavior" error value.
  * getmaxyx(win, y, x): yields the window's (lines, cols).
  * mvwaddstr(win, y, x, s): writes s starting at row y, column x.
  * wmove + waddch(' ') * n: writes n blanks starting at the cursor.
  * wsyncup / wrefresh / delwin: modelled as trace events only (they
    do not change any element field or registry).
-/

/-- The Text leaf element of the header: name, stored coordinate and
the immutable content string (member m_text, accessor text()). -/
structure Text where
  name : String
  x : Nat
  y : Nat
  text : String
  deriving DecidableEq

/-- Text::rows() — a text always occupies one row. -/
def Text.rows (_ : Text) : Nat := 1

/-- Text::cols() — a text occupies text.size() columns. -/
def Text.cols (t : Text) : Nat := t.text.length

/-- The Window element: Element fields (name, x, y) plus m_border,
m_rows, m_cols (the stored, post-border-inset usable extents produced
by the constructor), m_subwindows and m_texts.  m_texts holds
Option Text because std::remove_if leaves moved-from (null)
unique_ptr slots behind (removeText never erases). -/
inductive Window where
  | mk (name : String) (x : Nat) (y : Nat) (border : Bool) (rows : Nat) (cols : Nat)
      (subwindows : List Window) (texts : List (Option Text))

/-- Element::name() for a Window. -/
def Window.name : Window → String
  | .mk n _ _ _ _ _ _ _ => n

/-- Element::x() for a Window. -/
def Window.x : Window → Nat
  | .mk _ x _ _ _ _ _ _ => x

/-- Element::y() for a Window. -/
def Window.y : Window → Nat
  | .mk _ _ y _ _ _ _ _ => y

/-- The m_border flag. -/
def Window.border : Window → Bool
  | .mk _ _ _ b _ _ _ _ => b

/-- Window::rows() — returns m_rows (already border-inset). -/
def Window.rows : Window → Nat
  | .mk _ _ _ _ r _ _ _ => r

/-- Window::cols() — returns m_cols (already border-inset). -/
def Window.cols : Window → Nat
  | .mk _ _ _ _ _ c _ _ => c

/-- The m_subwindows vector. -/
def Window.subwindows : Window → List Window
  | .mk _ _ _ _ _ _ subs _ => subs

/-- The m_texts vector (moved-from unique_ptr slots are none). -/
def Window.texts : Window → List (Option Text)
  | .mk _ _ _ _ _ _ _ ts => ts

/-- Replace the m_subwindows vector (push_back helper). -/
def Window.setSubwindows : Window → List Window → Window
  | .mk n x y b r c _ ts, subs => .mk n x y b r c subs ts

/-- Replace the m_texts vector (push_back / remove_if helper). -/
def Window.setTexts : Window → List (Option Text) → Window
  | .mk n x y b r c subs _, ts => .mk n x y b r c subs ts

/-- The real line count of the underlying curses WINDOW: the
constructor read it with getmaxyx and then decremented m_rows when a
border is present, so the surface itself has one more line back. -/
def Window.physRows (w : Window) : Nat := w.rows + (if w.border then 1 else 0)

/-- The real column count of the underlying curses WINDOW. -/
def Window.physCols (w : Window) : Nat := w.cols + (if w.border then 1 else 0)

/-- A curses surface: an unbounded grid of characters. -/
abbrev Surface := Nat → Nat → Char

/-- A surface holding blanks everywhere. -/
def blankSurface : Surface := fun _ _ => ' '

/-- Overwrite one cell of a surface. -/
def writeCell (s : Surface) (row col : Nat) (ch : Char) : Surface :=
  fun r c => if r = row ∧ c = col then ch else s r c

/-- Write a run of characters left to right starting at (row, col). -/
def writeRun (s : Surface) (row col : Nat) : List Char → Surface
  | [] => s
  | ch :: rest => writeRun (writeCell s row col ch) row (col + 1) rest

/-- mvwaddstr(win, y, x, t): paint t starting at row y, column x. -/
def mvwaddstr (s : Surface) (y x : Nat) (t : String) : Surface :=
  writeRun s y x t.data

/-- wmove(win, y, x) followed by len times waddch(win, ' '). -/
def blankRun (s : Surface) (y x len : Nat) : Surface :=
  writeRun s y x (List.replicate len ' ')

/-- The per-text side effect of removeText's remove_if predicate:
wmove(m_window, text->y(), text->x()) then one blank per character of
text->text(). -/
def blankText (s : Surface) (t : Text) : Surface :=
  blankRun s t.y t.x t.text.length

/-- Window::createWindow(name, relativex, relativey, rows, cols, border).
Source, verbatim structure:
  if (((relativex + rows) > m_rows) || ((relativey + cols) > m_cols))
    throw CursesException("Subwindow too large.");
  WINDOW *win = derwin(m_window, cols, rows, relativey, relativex);
  if (border) box(win, 0, 0);
  m_subwindows.push_back(WindowPtr(new Window(name, relativex, relativey, border, win)));
  return *(m_subwindows.back());
derwin receives (nlines = cols, ncols = rows); the child constructor
then reads getmaxyx, so the child's m_rows comes from the cols
argument and its m_cols from the rows argument, each decremented when
border is set.  A NULL derwin result (requested rectangle outside the
parent's real rectangle) is surfaced as an undefined-behavior error
since the header would then call box/getmaxyx on NULL. -/
def Window.createWindow (w : Window) (name : String) (relativex relativey rows cols : Nat)
    (border : Bool) : Except String (Window × Window) :=
  if relativex + rows > w.rows ∨ relativey + cols > w.cols then
    Except.error "Subwindow too large."
  else
    let derwinLines := if cols = 0 then w.physRows - relativey else cols
    let derwinCols := if rows = 0 then w.physCols - relativex else rows
    if relativey + derwinLines > w.physRows ∨ relativex + derwinCols > w.physCols then
      Except.error "undefined behavior: derwin returned NULL"
    else
      let child : Window := .mk name relativex relativey border
        (derwinLines - (if border then 1 else 0))
        (derwinCols - (if border then 1 else 0)) [] []
      Except.ok (w.setSubwindows (w.subwindows ++ [child]), child)

/-- Window::addText(name, relativex, relativey, text).  Source:
  if (m_border) { relativex++; relativey++; }
  if (((relativex + 1) > m_cols) || ((relativey + text.size()) > m_rows))
    throw CursesException("Text doesn't fit in window.");
  m_texts.push_back(TextPtr(new Text(name, relativex, relativey, text)));
  mvwaddstr(m_window, relativey, relativex, text.c_str()); -/
def Window.addText (w : Window) (s : Surface) (name : String) (relativex relativey : Nat)
    (text : String) : Except String (Window × Surface) :=
  let rx := if w.border then relativex + 1 else relativex
  let ry := if w.border then relativey + 1 else relativey
  if rx + 1 > w.cols ∨ ry + text.length > w.rows then
    Except.error "Text doesn't fit in window."
  else
    Except.ok (w.setTexts (w.texts ++ [some (Text.mk name rx ry text)]),
      mvwaddstr s ry rx text)

/-- Window::removeText(name).  Source:
  std::vector<TextPtr>::iterator new_end =
    std::remove_if(m_texts.begin(), m_texts.end(), [..](const TextPtr& text) {
      wmove(this->m_window, text->y(), text->x());
      for (int i = 0; i < text->text().size(); i++) waddch(this->m_window, ' ');
      return text->name() == name;
    });
The predicate runs once per element in order, blanking EVERY text's
run; matching elements are compacted away by move-assignment, but the
computed new_end is never passed to erase, so the vector keeps its
size: slots [0, kept) hold the non-matching texts in order, and each
slot past that holds the original element when it matched (never
moved from) and a moved-from null unique_ptr when it did not.
Dereferencing a moved-from slot (left behind by an earlier call) is
undefined behavior, surfaced as an error value.  No exception is ever
thrown by this function. -/
def Window.removeText (w : Window) (s : Surface) (name : String) :
    Except String (Window × Surface) :=
  if w.texts.all Option.isSome then
    let live := w.texts.filterMap id
    let s2 := live.foldl blankText s
    let kept := live.filter (fun t => !(t.name == name))
    let leftover := (live.drop kept.length).map
      (fun t => if t.name == name then some t else none)
    Except.ok (w.setTexts (kept.map some ++ leftover), s2)
  else
    Except.error "undefined behavior: moved-from TextPtr dereferenced"

/-- Screen::Screen() : Window("stdscr", 0, 0, false, initscr()).
initscr yields the whole terminal, whose getmaxyx dimensions are the
given line and column counts; border is fixed to false. -/
def Screen.init (lines cols : Nat) : Window :=
  Window.mk "stdscr" 0 0 false lines cols [] []

/-- C1.  The spec claims createWindow succeeds exactly when
x + cols ≤ usable cols and y + rows ≤ usable rows, and fails with a
BoundsError otherwise leaving the registry unchanged.  The code
instead tests (x + rows) against m_rows and (y + cols) against
m_cols, so on a 10 x 10 parent the call (x=3, y=0, rows=8, cols=2),
which the claim requires to succeed, throws, while the call
(x=5, y=0, rows=2, cols=6), which the claim requires to fail, succeeds
and registers a child. -/
theorem createWindow_bounds_check_transposed :
    ((3 + 2 ≤ 10 ∧ 0 + 8 ≤ 10) ∧
      (Screen.init 10 10).createWindow "sub" 3 0 8 2 false =
        Except.error "Subwindow too large.") ∧
    ((5 + 6 > 10) ∧
      ((Screen.init 10 10).createWindow "sub" 5 0 2 6 false).map
          (fun p => p.1.subwindows.length) = Except.ok 1) :=
  ⟨⟨by decide, rfl⟩, by decide, rfl⟩

/-- C2 counterexample.  A bordered child requested with rows = 3 and
cols = 5 reports footprint (4, 2), not (3, 5): derwin receives the
extents transposed and the border then insets each by one. -/
theorem createWindow_footprint_claim_false :
    ((Screen.init 10 10).createWindow "w" 0 0 3 5 true).map
        (fun p => (p.2.rows, p.2.cols)) = Except.ok (4, 2) ∧
      ((4, 2) : Nat × Nat) ≠ ((3, 5) : Nat × Nat) :=
  ⟨rfl, by decide⟩

/-- C2 amended.  For every successful createWindow call with positive
requested extents, the child's reported footprint is the transposed
pair, border-inset: rows() = cols - (border ? 1 : 0) and
cols() = rows - (border ? 1 : 0). -/
theorem createWindow_footprint_transposed
    (w : Window) (n : String) (x y rows cols : Nat) (border : Bool)
    (w2 c : Window) (hr : 0 < rows) (hc : 0 < cols)
    (h : w.createWindow n x y rows cols border = Except.ok (w2, c)) :
    c.rows = cols - (if border then 1 else 0) ∧
    c.cols = rows - (if border then 1 else 0) := by
  unfold Window.createWindow at h
  split at h
  · exact absurd h (by simp)
  · simp only [if_neg hc.ne', if_neg hr.ne'] at h
    split at h
    · exact absurd h (by simp)
    · rw [Except.ok.injEq, Prod.mk.injEq] at h
      rw [← h.2]
      exact ⟨rfl, rfl⟩

/-- C2 witness: the amended theorem applied to the 10 x 10 screen
with a bordered child of requested extents rows = 3, cols = 5. -/
theorem createWindow_footprint_transposed_witness :
    (Window.mk "w" 0 0 true 4 2 [] []).rows = 5 - (if true then 1 else 0) ∧
    (Window.mk "w" 0 0 true 4 2 [] []).cols = 3 - (if true then 1 else 0) :=
  createWindow_footprint_transposed (Screen.init 10 10) "w" 0 0 3 5 true
    (Window.mk "stdscr" 0 0 false 10 10 [Window.mk "w" 0 0 true 4 2 [] []] [])
    (Window.mk "w" 0 0 true 4 2 [] []) (by decide) (by decide) rfl

/-- Projection of setTexts: the stored m_texts vector becomes the
given list. -/
theorem Window.texts_setTexts (w : Window) (ts : List (Option Text)) :
    (w.setTexts ts).texts = ts := by
  cases w
  rfl

/-- setTexts changes no other field: name is kept. -/
theorem Window.name_setTexts (w : Window) (ts : List (Option Text)) :
    (w.setTexts ts).name = w.name := by
  cases w
  rfl

/-- Projection of setSubwindows: the stored m_subwindows vector
becomes the given list. -/
theorem Window.subwindows_setSubwindows (w : Window) (subs : List Window) :
    (w.setSubwindows subs).subwindows = subs := by
  cases w
  rfl

/-- C3.  The spec claims addText fails with a BoundsError exactly
when the text's one-row footprint exceeds the usable area, in
particular when x + length(content) > usable cols.  The code instead
tests (x + 1) against m_cols and (y + length) against m_rows: on a
parent of 10 usable rows and 5 usable cols, addText(x=2, y=0, "hello")
must fail per the claim (2 + 5 > 5) but succeeds, registers the text
and paints through column 6, outside the 5 usable columns; while on a
parent of 3 rows and 10 cols, addText(x=0, y=0, "hello") fits per the
claim (5 ≤ 10, 1 ≤ 3) but the code throws. -/
theorem addText_bounds_check_transposed :
    ((2 + "hello".length > 5) ∧
      ((Screen.init 10 5).addText blankSurface "t" 2 0 "hello").map
          (fun p => (p.2 0 6, (p.1.texts.filterMap id).length)) =
        Except.ok ('o', 1)) ∧
    ((0 + "hello".length ≤ 10 ∧ 0 + 1 ≤ 3) ∧
      (Screen.init 3 10).addText blankSurface "t" 0 0 "hello" =
        Except.error "Text doesn't fit in window.") :=
  ⟨⟨by decide, rfl⟩, by decide, rfl⟩

/-- The one registered text of the C4 scenario. -/
def c4Text : Text := Text.mk "t" 0 0 "hi"

/-- The C4 window: a 10 x 10 screen holding the single text "t". -/
def c4Window : Window := Window.mk "stdscr" 0 0 false 10 10 [] [some c4Text]

/-- The C4 surface right after the text was painted. -/
def c4Surface : Surface := mvwaddstr blankSurface 0 0 "hi"

/-- C4.  The spec claims removeText of an erased name fails with
NotFoundError because a successful remove erases the child from the
registry.  The code never erases (std::remove_if's result is not
passed to erase: with a single matching text no element is even
moved) and never throws: both the first and the second
removeText("t") return normally, and the registry still holds the
text "t" afterwards. -/
theorem removeText_never_throws_never_erases :
    ((Screen.init 10 10).addText blankSurface "t" 0 0 "hi" =
      Except.ok (c4Window, c4Surface)) ∧
    (c4Window.removeText c4Surface "t" =
      Except.ok (c4Window, blankRun c4Surface 0 0 "hi".length)) ∧
    (c4Window.removeText (blankRun c4Surface 0 0 "hi".length) "t" =
      Except.ok (c4Window,
        blankRun (blankRun c4Surface 0 0 "hi".length) 0 0 "hi".length)) ∧
    (c4Window.texts.filterMap id).countP (fun t => t.name == "t") = 1 :=
  ⟨rfl, rfl, rfl, by decide⟩

/-- First text of the C5 scenario, registered under "a" at row 0. -/
def c5TextA : Text := Text.mk "a" 0 0 "hi"

/-- Second text of the C5 scenario, registered under "b" at row 1. -/
def c5TextB : Text := Text.mk "b" 0 1 "yo"

/-- C5 window state after the first add. -/
def c5Window1 : Window := Window.mk "stdscr" 0 0 false 10 10 [] [some c5TextA]

/-- C5 surface after the first add. -/
def c5Surface1 : Surface := mvwaddstr blankSurface 0 0 "hi"

/-- C5 window state with both texts registered. -/
def c5Window2 : Window :=
  Window.mk "stdscr" 0 0 false 10 10 [] [some c5TextA, some c5TextB]

/-- C5 surface with both texts painted. -/
def c5Surface2 : Surface := mvwaddstr c5Surface1 1 0 "yo"

/-- C5.  The spec claims remove blanks exactly the removed child's
footprint and leaves every other cell — in particular other
registered elements' painted content — unchanged.  The remove_if
predicate in removeText blanks every text's run before testing the
name, so removing "a" also blanks the cells of the still-registered
text "b": cell (row 1, col 0) reads 'y' before the remove and ' '
after it. -/
theorem removeText_blanks_other_elements :
    ((Screen.init 10 10).addText blankSurface "a" 0 0 "hi" =
      Except.ok (c5Window1, c5Surface1)) ∧
    (c5Window1.addText c5Surface1 "b" 0 1 "yo" =
      Except.ok (c5Window2, c5Surface2)) ∧
    (c5Surface2 1 0 = 'y') ∧
    ((c5Window2.removeText c5Surface2 "a").map
        (fun p => (p.2 1 0, p.2 0 0)) = Except.ok (' ', ' ')) :=
  ⟨rfl, rfl, by decide, rfl⟩

/-- First C6 text registered under "a". -/
def c6Text1 : Text := Text.mk "a" 0 0 "xy"

/-- Second C6 text, same name "a", different position and content. -/
def c6Text2 : Text := Text.mk "a" 1 1 "zw"

/-- C6 window after the first add of name "a". -/
def c6Window1 : Window := Window.mk "stdscr" 0 0 false 10 10 [] [some c6Text1]

/-- C6 surface after the first add. -/
def c6Surface1 : Surface := mvwaddstr blankSurface 0 0 "xy"

/-- C6 window after adding the name "a" a second time: both entries
live side by side. -/
def c6Window2 : Window :=
  Window.mk "stdscr" 0 0 false 10 10 [] [some c6Text1, some c6Text2]

/-- C6 counterexample.  Adding a text under the already-registered
name "a" does not fail: the second add succeeds and the registry then
holds two children named "a". -/
theorem duplicate_name_not_rejected :
    ((Screen.init 10 10).addText blankSurface "a" 0 0 "xy" =
      Except.ok (c6Window1, c6Surface1)) ∧
    (c6Window1.addText c6Surface1 "a" 1 1 "zw" =
      Except.ok (c6Window2, mvwaddstr c6Surface1 1 1 "zw")) ∧
    (c6Window2.texts.filterMap id).countP (fun t => t.name == "a") = 2 :=
  ⟨rfl, rfl, by decide⟩

/-- The ok-case shape of addText: a successful call appends one Text
carrying the given name, the content, and the inset-adjusted paint
coordinates, and the surface is painted at exactly those coordinates. -/
theorem addText_ok_spec (w : Window) (s : Surface) (n : String) (x y : Nat) (t : String)
    (w2 : Window) (s2 : Surface) (h : w.addText s n x y t = Except.ok (w2, s2)) :
    ∃ tx : Text, tx.name = n ∧ tx.text = t ∧
      w2.texts = w.texts ++ [some tx] ∧ s2 = mvwaddstr s tx.y tx.x t := by
  revert h
  simp only [Window.addText]
  split <;> split <;> intro h <;>
    first
    | (rw [Except.ok.injEq, Prod.mk.injEq] at h
       exact ⟨_, rfl, rfl, by rw [← h.1, Window.texts_setTexts], h.2.symm⟩)
    | exact absurd h (by simp)

/-- The ok-case shape of createWindow: a successful call appends one
child window carrying the given name. -/
theorem createWindow_ok_spec (w : Window) (n : String) (x y r c : Nat) (b : Bool)
    (w2 cw : Window) (h : w.createWindow n x y r c b = Except.ok (w2, cw)) :
    cw.name = n ∧ w2.subwindows = w.subwindows ++ [cw] := by
  revert h
  simp only [Window.createWindow]
  repeat' split
  all_goals intro h
  all_goals
    first
    | (rw [Except.ok.injEq, Prod.mk.injEq] at h
       exact ⟨by rw [← h.2]; rfl, by rw [← h.1, ← h.2, Window.subwindows_setSubwindows]⟩)
    | exact absurd h (by simp)

/-- C6 amended.  Neither addText nor createWindow consults the
existing names: adding under an already-registered name succeeds and
appends a further child next to the existing one, which is neither
removed nor replaced — afterwards at least two direct children carry
that name. -/
theorem add_duplicate_name_appends
    (w : Window) (s : Surface) (n : String) (x y : Nat) (t : String)
    (w2 : Window) (s2 : Surface)
    (x2 y2 r c : Nat) (b : Bool) (w3 cw : Window)
    (hdup : 0 < (w.texts.filterMap id).countP (fun tx => tx.name == n))
    (hdupW : 0 < w.subwindows.countP (fun v => v.name == n))
    (h : w.addText s n x y t = Except.ok (w2, s2))
    (hw : w.createWindow n x2 y2 r c b = Except.ok (w3, cw)) :
    ((∃ tx : Text, tx.name = n ∧ w2.texts = w.texts ++ [some tx]) ∧
      1 < (w2.texts.filterMap id).countP (fun tx => tx.name == n)) ∧
    ((cw.name = n ∧ w3.subwindows = w.subwindows ++ [cw]) ∧
      1 < w3.subwindows.countP (fun v => v.name == n)) := by
  obtain ⟨tx, htxn, -, hts, -⟩ := addText_ok_spec w s n x y t w2 s2 h
  obtain ⟨hcwn, hsubs⟩ := createWindow_ok_spec w n x2 y2 r c b w3 cw hw
  refine ⟨⟨⟨tx, htxn, hts⟩, ?_⟩, ⟨⟨hcwn, hsubs⟩, ?_⟩⟩
  · rw [hts]
    simp only [List.filterMap_append, List.countP_append]
    have hone : ((([some tx] : List (Option Text)).filterMap id).countP
        (fun tx2 => tx2.name == n)) = 1 := by
      simp [htxn]
    omega
  · rw [hsubs, List.countP_append]
    have hone : (([cw] : List Window).countP (fun v => v.name == n)) = 1 := by
      simp [hcwn]
    omega

/-- C6 amended witness: the duplicate-append theorem applied to a
10 x 10 screen that already holds a text "a" and a subwindow "a". -/
theorem add_duplicate_name_appends_witness :
    ((∃ tx : Text,
        tx.name = "a" ∧
        (Window.mk "stdscr" 0 0 false 10 10
            [Window.mk "a" 0 0 false 2 2 [] []] [some c6Text1, some c6Text2]).texts =
          (Window.mk "stdscr" 0 0 false 10 10
            [Window.mk "a" 0 0 false 2 2 [] []] [some c6Text1]).texts ++ [some tx]) ∧
      1 < ((Window.mk "stdscr" 0 0 false 10 10
          [Window.mk "a" 0 0 false 2 2 [] []]
          [some c6Text1, some c6Text2]).texts.filterMap id).countP
        (fun tx => tx.name == "a")) ∧
    (((Window.mk "a" 3 3 false 2 2 [] []).name = "a" ∧
      (Window.mk "stdscr" 0 0 false 10 10
          [Window.mk "a" 0 0 false 2 2 [] [], Window.mk "a" 3 3 false 2 2 [] []]
          [some c6Text1]).subwindows =
        (Window.mk "stdscr" 0 0 false 10 10
          [Window.mk "a" 0 0 false 2 2 [] []] [some c6Text1]).subwindows ++
          [Window.mk "a" 3 3 false 2 2 [] []]) ∧
      1 < (Window.mk "stdscr" 0 0 false 10 10
          [Window.mk "a" 0 0 false 2 2 [] [], Window.mk "a" 3 3 false 2 2 [] []]
          [some c6Text1]).subwindows.countP (fun v => v.name == "a")) :=
  add_duplicate_name_appends
    (Window.mk "stdscr" 0 0 false 10 10
      [Window.mk "a" 0 0 false 2 2 [] []] [some c6Text1])
    c6Surface1 "a" 1 1 "zw"
    (Window.mk "stdscr" 0 0 false 10 10
      [Window.mk "a" 0 0 false 2 2 [] []] [some c6Text1, some c6Text2])
    (mvwaddstr c6Surface1 1 1 "zw")
    3 3 2 2 false
    (Window.mk "stdscr" 0 0 false 10 10
      [Window.mk "a" 0 0 false 2 2 [] [], Window.mk "a" 3 3 false 2 2 [] []]
      [some c6Text1])
    (Window.mk "a" 3 3 false 2 2 [] [])
    (by decide) (by decide) rfl rfl

/-- C9.  Every successful addText registers a Text carrying exactly
the inset-adjusted coordinate at which the string was painted and the
full content; removeText's per-text blank (blankText, the function
its remove_if predicate applies) therefore starts at exactly the
painted cell (row text.y(), column text.x()) and runs for exactly
length(content) cells. -/
theorem addText_paint_and_blank_agree
    (w : Window) (s : Surface) (n : String) (x y : Nat) (t : String)
    (w2 : Window) (s2 : Surface)
    (h : w.addText s n x y t = Except.ok (w2, s2)) :
    ∃ tx : Text, w2.texts = w.texts ++ [some tx] ∧ tx.text = t ∧
      s2 = mvwaddstr s tx.y tx.x t ∧
      ∀ s0 : Surface, blankText s0 tx = blankRun s0 tx.y tx.x t.length := by
  obtain ⟨tx, -, htxt, hts, hs⟩ := addText_ok_spec w s n x y t w2 s2 h
  exact ⟨tx, hts, htxt, hs, fun s0 => by rw [← htxt]; rfl⟩

/-- C9 witness state after addText on a 10 x 10 screen. -/
def c9Window : Window :=
  Window.mk "stdscr" 0 0 false 10 10 [] [some (Text.mk "t" 1 2 "ab")]

/-- C9 witness surface after the paint. -/
def c9Surface : Surface := mvwaddstr blankSurface 2 1 "ab"

/-- C9 witness: the paint/blank agreement applied to a concrete
addText("t", 1, 2, "ab") call. -/
theorem addText_paint_and_blank_agree_witness :
    ∃ tx : Text, c9Window.texts = (Screen.init 10 10).texts ++ [some tx] ∧
      tx.text = "ab" ∧
      c9Surface = mvwaddstr blankSurface tx.y tx.x "ab" ∧
      ∀ s0 : Surface, blankText s0 tx = blankRun s0 tx.y tx.x "ab".length :=
  addText_paint_and_blank_agree (Screen.init 10 10) blankSurface "t" 1 2 "ab"
    c9Window c9Surface rfl

/-- Observable events of Window::update on the underlying surfaces. -/
inductive UEvent where
  | wsyncup (name : String)
  | wrefresh (name : String)
  deriving DecidableEq

mutual

/-- Trace of Window::update: for_each over m_subwindows recursively
updates every child first, then wsyncup(m_window) and
wrefresh(m_window) run for this window. -/
def updateTrace : Window → List UEvent
  | .mk n _ _ _ _ _ subs _ =>
    updateTraceList subs ++ [UEvent.wsyncup n, UEvent.wrefresh n]

/-- Update events of a subwindow vector, in insertion order. -/
def updateTraceList : List Window → List UEvent
  | [] => []
  | w :: ws => updateTrace w ++ updateTraceList ws

end

mutual

/-- All proper descendant windows of a window. -/
def descs : Window → List Window
  | .mk _ _ _ _ _ _ subs _ => subs ++ descsList subs

/-- All proper descendants of the windows of a list. -/
def descsList : List Window → List Window
  | [] => []
  | w :: ws => descs w ++ descsList ws

end

/-- Every window's own wsyncup event occurs in its update trace. -/
theorem wsyncup_mem_updateTrace (w : Window) :
    UEvent.wsyncup w.name ∈ updateTrace w := by
  cases w with
  | mk n x y b r c subs ts =>
    rw [show updateTrace (Window.mk n x y b r c subs ts) =
        updateTraceList subs ++ [UEvent.wsyncup n, UEvent.wrefresh n] from by
      simp [updateTrace]]
    simp [Window.name]

/-- A listed window's wsyncup event occurs in the list's trace. -/
theorem sync_mem_traceList_of_mem (ws : List Window) (d : Window) (hd : d ∈ ws) :
    UEvent.wsyncup d.name ∈ updateTraceList ws := by
  induction ws with
  | nil => cases hd
  | cons w rest ih =>
    rw [show updateTraceList (w :: rest) = updateTrace w ++ updateTraceList rest from by
      simp [updateTraceList]]
    rcases List.mem_cons.mp hd with rfl | h2
    · exact List.mem_append_left _ (wsyncup_mem_updateTrace d)
    · exact List.mem_append_right _ (ih h2)

mutual

/-- A descendant's wsyncup event occurs in the ancestor's trace. -/
theorem desc_sync_mem_trace : ∀ (w d : Window),
    d ∈ descs w → UEvent.wsyncup d.name ∈ updateTrace w
  | .mk n x y b r c subs ts, d, hd => by
    have hd2 : d ∈ subs ∨ d ∈ descsList subs := by
      have : descs (Window.mk n x y b r c subs ts) = subs ++ descsList subs := by
        simp [descs]
      rw [this] at hd
      exact List.mem_append.mp hd
    rw [show updateTrace (Window.mk n x y b r c subs ts) =
        updateTraceList subs ++ [UEvent.wsyncup n, UEvent.wrefresh n] from by
      simp [updateTrace]]
    rcases hd2 with hmem | hdesc
    · exact List.mem_append_left _ (sync_mem_traceList_of_mem subs d hmem)
    · exact List.mem_append_left _ (descList_sync_mem_traceList subs d hdesc)

/-- A transitive descendant of some listed window has its wsyncup
event inside the list's trace. -/
theorem descList_sync_mem_traceList : ∀ (ws : List Window) (d : Window),
    d ∈ descsList ws → UEvent.wsyncup d.name ∈ updateTraceList ws
  | [], d, hd => by simp [descsList] at hd
  | w :: ws, d, hd => by
    have hd2 : d ∈ descs w ∨ d ∈ descsList ws := by
      have : descsList (w :: ws) = descs w ++ descsList ws := by simp [descsList]
      rw [this] at hd
      exact List.mem_append.mp hd
    rw [show updateTraceList (w :: ws) = updateTrace w ++ updateTraceList ws from by
      simp [updateTraceList]]
    rcases hd2 with h1 | h2
    · exact List.mem_append_left _ (desc_sync_mem_trace w d h1)
    · exact List.mem_append_right _ (descList_sync_mem_traceList ws d h2)

end

/-- C7.  update() recursively updates every child window first and
only afterwards syncs and flushes this window's own surface: in the
update trace, every proper descendant's wsyncup event occurs at a
strictly earlier position than the window's own wsyncup event (whose
position is the length of the children's combined trace, which holds
the children's events in insertion order). -/
theorem update_visits_descendants_before_self (w d : Window) (hd : d ∈ descs w) :
    ∃ i j, i < j ∧ (updateTrace w).get? i = some (UEvent.wsyncup d.name) ∧
      (updateTrace w).get? j = some (UEvent.wsyncup w.name) := by
  cases w with
  | mk n x y b r c subs ts =>
    have htr : updateTrace (Window.mk n x y b r c subs ts) =
        updateTraceList subs ++ [UEvent.wsyncup n, UEvent.wrefresh n] := by
      simp [updateTrace]
    have hd2 : d ∈ subs ∨ d ∈ descsList subs := by
      have : descs (Window.mk n x y b r c subs ts) = subs ++ descsList subs := by
        simp [descs]
      rw [this] at hd
      exact List.mem_append.mp hd
    have hmemPre : UEvent.wsyncup d.name ∈ updateTraceList subs := by
      rcases hd2 with h1 | h2
      · exact sync_mem_traceList_of_mem subs d h1
      · exact descList_sync_mem_traceList subs d h2
    obtain ⟨i, hget⟩ := List.mem_iff_get?.mp hmemPre
    have hilt : i < (updateTraceList subs).length :=
      List.get?_eq_some.mp hget |>.1
    refine ⟨i, (updateTraceList subs).length, hilt, ?_, ?_⟩
    · rw [htr, List.get?_append hilt]
      exact hget
    · rw [htr, List.get?_append_right (le_refl _), Nat.sub_self]
      rfl

/-- Leaf window of the concrete depth-2 tree for C7. -/
def c7Leaf : Window := Window.mk "leaf" 0 0 false 2 2 [] []

/-- Middle window of the concrete depth-2 tree for C7. -/
def c7Mid : Window := Window.mk "mid" 0 0 false 5 5 [c7Leaf] []

/-- Root of the concrete depth-2 tree for C7. -/
def c7Root : Window := Window.mk "stdscr" 0 0 false 10 10 [c7Mid] []

/-- C7 witness: on the depth-2 tree, the grandchild's wsyncup comes
strictly before the root's own wsyncup. -/
theorem update_visits_descendants_before_self_witness :
    ∃ i j, i < j ∧
      (updateTrace c7Root).get? i = some (UEvent.wsyncup c7Leaf.name) ∧
      (updateTrace c7Root).get? j = some (UEvent.wsyncup c7Root.name) :=
  update_visits_descendants_before_self c7Root c7Leaf (by
    have h1 : descs c7Root = [c7Mid] ++ descsList [c7Mid] := by
      simp [c7Root, descs]
    have h2 : descsList [c7Mid] = descs c7Mid ++ descsList ([] : List Window) := by
      simp [descsList]
    have h3 : descs c7Mid = [c7Leaf] ++ descsList [c7Leaf] := by
      simp [c7Mid, descs]
    rw [h1, h2, h3]
    exact List.mem_append_right _ (List.mem_append_left _
      (List.mem_append_left _ (List.mem_cons_self _ _))))

mutual

/-- Trace of surface destructions (delwin calls) triggered by
~Window, identified by window name: the destructor body runs first
and calls delwin on this window's own surface; only afterwards are
the members destroyed, m_subwindows among them, which recursively
destroys the children's surfaces.  (The destruction order of the
vector's elements is not fixed by the C++ standard; insertion order
is used here, which does not affect the parent-versus-children
ordering.) -/
def destroyTrace : Window → List String
  | .mk n _ _ _ _ _ subs _ => n :: destroyTraceList subs

/-- Destruction events of a subwindow vector. -/
def destroyTraceList : List Window → List String
  | [] => []
  | w :: ws => destroyTrace w ++ destroyTraceList ws

end

/-- Child window of the concrete C8 tree. -/
def c8Child : Window := Window.mk "child" 0 0 false 4 4 [] []

/-- Parent window of the concrete C8 tree. -/
def c8Parent : Window := Window.mk "parent" 0 0 false 10 10 [c8Child] []

/-- C8.  The claim requires every child's surface to be destroyed
before or while the parent's is, never parent first.  ~Window calls
delwin(m_window) in the destructor body, which runs before the member
m_subwindows is destructed, so the parent's surface destruction is
always the first event of the trace, strictly before every
descendant's — on the concrete parent/child pair the delwin order is
["parent", "child"]. -/
theorem window_destructor_destroys_parent_surface_first :
    (∀ w : Window, (destroyTrace w).head? = some w.name) ∧
    destroyTrace c8Parent = ["parent", "child"] := by
  constructor
  · intro w
    cases w with
    | mk n x y b r c subs ts => simp [destroyTrace, Window.name]
  · simp [c8Parent, c8Child, destroyTrace, destroyTraceList]

/-- The record of an element that C10 is about: name, coordinate
(x, y) and reported footprint (rows, cols). -/
abbrev ElemRecord := String × Nat × Nat × Nat × Nat

/-- The record of a Text element: footprint (rows(), cols()) =
(1, length(content)). -/
def Text.elemRecord (t : Text) : ElemRecord := (t.name, t.x, t.y, Text.rows t, Text.cols t)

mutual

/-- All element records of a window tree: the window's own record
followed by its live texts' records and, recursively, its
subwindows' element records. -/
def elems : Window → List ElemRecord
  | .mk n x y _ r c subs ts =>
    (n, x, y, r, c) :: (ts.filterMap (fun o => o.map Text.elemRecord) ++ elemsList subs)

/-- Element records of a list of windows. -/
def elemsList : List Window → List ElemRecord
  | [] => []
  | w :: ws => elems w ++ elemsList ws

end

/-- One public operation of the Window interface. -/
inductive Op where
  | createWindow (name : String) (relativex relativey rows cols : Nat) (border : Bool)
  | addText (name : String) (relativex relativey : Nat) (text : String)
  | removeText (name : String)
  | update

/-- Apply one operation to one window, keeping the window result
(the surface result is irrelevant to element records; update changes
no registry or field, it only syncs surfaces). -/
def applyOp (w : Window) (s : Surface) : Op → Except String Window
  | .createWindow n x y r c b => (w.createWindow n x y r c b).map (fun p => p.1)
  | .addText n x y t => (w.addText s n x y t).map (fun p => p.1)
  | .removeText n => (w.removeText s n).map (fun p => p.1)
  | .update => Except.ok w

mutual

/-- Apply an operation to the window addressed by a path of child
indices inside a tree, rebuilding the tree around it (the C++ caller
holds a reference to that window inside the parent-owned tree). -/
def applyAt (w : Window) (s : Surface) : List Nat → Op → Except String Window
  | [], op => applyOp w s op
  | i :: p, op =>
    (applyAtChildren w.subwindows s i p op).map (fun subs2 => w.setSubwindows subs2)
termination_by path op => (path.length, 0)

/-- Apply an operation below the i-th window of a subwindow list. -/
def applyAtChildren : List Window → Surface → Nat → List Nat → Op → Except String (List Window)
  | [], _, _, _, _ => Except.error "no window at this path"
  | c :: rest, s, 0, p, op => (applyAt c s p op).map (fun c2 => c2 :: rest)
  | c :: rest, s, i + 1, p, op =>
    (applyAtChildren rest s i p op).map (fun rest2 => c :: rest2)
termination_by l s i p op => (p.length, l.length + 1)

end

/-- Unfolding of elems through its accessors. -/
theorem elems_decomp (w : Window) :
    elems w = (w.name, w.x, w.y, w.rows, w.cols) ::
      (w.texts.filterMap (fun o => o.map Text.elemRecord) ++ elemsList w.subwindows) := by
  cases w
  simp [elems, Window.name, Window.x, Window.y, Window.rows, Window.cols,
    Window.texts, Window.subwindows]

/-- elems after replacing the subwindow vector. -/
theorem elems_setSubwindows (w : Window) (l : List Window) :
    elems (w.setSubwindows l) = (w.name, w.x, w.y, w.rows, w.cols) ::
      (w.texts.filterMap (fun o => o.map Text.elemRecord) ++ elemsList l) := by
  cases w
  simp [Window.setSubwindows, elems, Window.name, Window.x, Window.y, Window.rows,
    Window.cols, Window.texts]

/-- elems after replacing the text vector. -/
theorem elems_setTexts (w : Window) (l : List (Option Text)) :
    elems (w.setTexts l) = (w.name, w.x, w.y, w.rows, w.cols) ::
      (l.filterMap (fun o => o.map Text.elemRecord) ++ elemsList w.subwindows) := by
  cases w
  simp [Window.setTexts, elems, Window.name, Window.x, Window.y, Window.rows,
    Window.cols, Window.subwindows]

/-- elemsList distributes over list append. -/
theorem elemsList_append (l1 l2 : List Window) :
    elemsList (l1 ++ l2) = elemsList l1 ++ elemsList l2 := by
  induction l1 with
  | nil => simp [elemsList]
  | cons w ws ih => simp [elemsList, ih]

/-- The element-record preservation each operation guarantees for
previously existing elements: the adds extend the record list keeping
every old record in place, removeText only keeps records that were
already present, update changes nothing. -/
def opPreserves (op : Op) (before after : List ElemRecord) : Prop :=
  match op with
  | Op.update => after = before
  | Op.removeText _ => ∀ e ∈ after, e ∈ before
  | _ => List.Sublist before after

/-- opPreserves lifts through a common head record and text block. -/
theorem opPreserves_cons_append (op : Op) (x : ElemRecord) (t a b : List ElemRecord)
    (h : opPreserves op a b) : opPreserves op (x :: (t ++ a)) (x :: (t ++ b)) := by
  cases op with
  | update => simp only [opPreserves] at h ⊢; rw [h]
  | removeText n =>
    simp only [opPreserves] at h ⊢
    intro e he
    rcases List.mem_cons.mp he with rfl | he2
    · exact List.mem_cons_self _ _
    · rcases List.mem_append.mp he2 with h3 | h4
      · exact List.mem_cons_of_mem _ (List.mem_append_left _ h3)
      · exact List.mem_cons_of_mem _ (List.mem_append_right _ (h e h4))
  | createWindow n2 x2 y2 r2 c2 b2 =>
    simp only [opPreserves] at h ⊢
    exact List.Sublist.cons₂ _ (h.append_left t)
  | addText n2 x2 y2 t2 =>
    simp only [opPreserves] at h ⊢
    exact List.Sublist.cons₂ _ (h.append_left t)

/-- opPreserves lifts through a fixed right append. -/
theorem opPreserves_append_right (op : Op) (r a b : List ElemRecord)
    (h : opPreserves op a b) : opPreserves op (a ++ r) (b ++ r) := by
  cases op with
  | update => simp only [opPreserves] at h ⊢; rw [h]
  | removeText n =>
    simp only [opPreserves] at h ⊢
    intro e he
    rcases List.mem_append.mp he with h1 | h2
    · exact List.mem_append_left _ (h e h1)
    · exact List.mem_append_right _ h2
  | createWindow n2 x2 y2 r2 c2 b2 =>
    simp only [opPreserves] at h ⊢
    exact h.append_right r
  | addText n2 x2 y2 t2 =>
    simp only [opPreserves] at h ⊢
    exact h.append_right r

/-- opPreserves lifts through a fixed left append. -/
theorem opPreserves_append_left (op : Op) (l a b : List ElemRecord)
    (h : opPreserves op a b) : opPreserves op (l ++ a) (l ++ b) := by
  cases op with
  | update => simp only [opPreserves] at h ⊢; rw [h]
  | removeText n =>
    simp only [opPreserves] at h ⊢
    intro e he
    rcases List.mem_append.mp he with h1 | h2
    · exact List.mem_append_left _ h1
    · exact List.mem_append_right _ (h e h2)
  | createWindow n2 x2 y2 r2 c2 b2 =>
    simp only [opPreserves] at h ⊢
    exact h.append_left l
  | addText n2 x2 y2 t2 =>
    simp only [opPreserves] at h ⊢
    exact h.append_left l

/-- The ok-case shape of addText as a whole-window equation: the
result is the same window with one Text pushed onto m_texts. -/
theorem addText_ok_shape (w : Window) (s : Surface) (n : String) (x y : Nat) (t : String)
    (w2 : Window) (s2 : Surface) (h : w.addText s n x y t = Except.ok (w2, s2)) :
    ∃ tx : Text, w2 = w.setTexts (w.texts ++ [some tx]) := by
  revert h
  simp only [Window.addText]
  split <;> split <;> intro h <;>
    first
    | (rw [Except.ok.injEq, Prod.mk.injEq] at h
       exact ⟨_, h.1.symm⟩)
    | exact absurd h (by simp)

/-- The ok-case shape of createWindow as a whole-window equation: the
result is the same window with the returned child (which starts with
empty registries) pushed onto m_subwindows. -/
theorem createWindow_ok_shape (w : Window) (n : String) (x y r c : Nat) (b : Bool)
    (w2 cw : Window) (h : w.createWindow n x y r c b = Except.ok (w2, cw)) :
    w2 = w.setSubwindows (w.subwindows ++ [cw]) ∧ cw.subwindows = [] ∧ cw.texts = [] := by
  revert h
  simp only [Window.createWindow]
  repeat' split
  all_goals intro h
  all_goals
    first
    | (rw [Except.ok.injEq, Prod.mk.injEq] at h
       exact ⟨by rw [← h.1, ← h.2], by rw [← h.2]; rfl, by rw [← h.2]; rfl⟩)
    | exact absurd h (by simp)

/-- The ok-case shape of removeText: the resulting m_texts vector is
remove_if's final state — the kept texts compacted in front, then the
leftover slots (still-alive matched trailing texts, null otherwise). -/
theorem removeText_ok_shape (w : Window) (s : Surface) (nm : String)
    (w2 : Window) (s2 : Surface) (h : w.removeText s nm = Except.ok (w2, s2)) :
    w2 = w.setTexts
      ((((w.texts.filterMap id).filter (fun t => !(t.name == nm))).map some) ++
        ((w.texts.filterMap id).drop
            (((w.texts.filterMap id).filter (fun t => !(t.name == nm))).length)).map
          (fun t => if t.name == nm then some t else none)) := by
  revert h
  simp only [Window.removeText]
  split <;> intro h
  · rw [Except.ok.injEq, Prod.mk.injEq] at h
    exact h.1.symm
  · exact absurd h (by simp)

/-- Every text still alive after removeText was registered before it. -/
theorem removeText_keeps_only_existing (w : Window) (s : Surface) (nm : String)
    (w2 : Window) (s2 : Surface) (h : w.removeText s nm = Except.ok (w2, s2)) :
    ∀ t : Text, some t ∈ w2.texts → some t ∈ w.texts := by
  intro t ht
  rw [removeText_ok_shape w s nm w2 s2 h, Window.texts_setTexts] at ht
  have hlive : t ∈ w.texts.filterMap id → some t ∈ w.texts := by
    intro hmem
    obtain ⟨o, ho, hoe⟩ := List.mem_filterMap.mp hmem
    simp only [id_eq] at hoe
    rwa [hoe] at ho
  rcases List.mem_append.mp ht with h1 | h2
  · obtain ⟨t0, ht0, he⟩ := List.mem_map.mp h1
    obtain rfl : t0 = t := by injection he
    exact hlive ((List.filter_sublist _).subset ht0)
  · obtain ⟨t0, ht0, he⟩ := List.mem_map.mp h2
    by_cases hc : (t0.name == nm) = true
    · rw [if_pos hc] at he
      obtain rfl : t0 = t := by injection he
      exact hlive (List.drop_subset _ _ ht0)
    · rw [if_neg hc] at he
      exact absurd he (by simp)

/-- Applying one operation directly to a window preserves all its
previously existing element records per opPreserves. -/
theorem applyOp_preserves (w : Window) (s : Surface) (op : Op) (w2 : Window)
    (h : applyOp w s op = Except.ok w2) : opPreserves op (elems w) (elems w2) := by
  cases op with
  | update =>
    simp only [applyOp, Except.ok.injEq] at h
    simp only [opPreserves]
    rw [h]
  | createWindow n x y r c b =>
    simp only [applyOp] at h
    cases hcw : w.createWindow n x y r c b with
    | error e => rw [hcw] at h; exact absurd h (by simp [Except.map])
    | ok pr =>
      obtain ⟨w3, cw⟩ := pr
      rw [hcw] at h
      simp only [Except.map, Except.ok.injEq] at h
      obtain ⟨hsh, hsubsNil, htsNil⟩ := createWindow_ok_shape w n x y r c b w3 cw hcw
      rw [← h, hsh]
      simp only [opPreserves]
      rw [elems_setSubwindows, elems_decomp w, elemsList_append]
      have hcwElems : elemsList [cw] = [(cw.name, cw.x, cw.y, cw.rows, cw.cols)] := by
        rw [show elemsList [cw] = elems cw ++ elemsList [] from by simp [elemsList],
          show elemsList ([] : List Window) = [] from by simp [elemsList],
          elems_decomp cw, hsubsNil, htsNil,
          show elemsList ([] : List Window) = [] from by simp [elemsList]]
        simp
      rw [hcwElems]
      exact List.Sublist.cons₂ _ ((List.sublist_append_left _ _).append_left _)
  | addText n x y t =>
    simp only [applyOp] at h
    cases hat : w.addText s n x y t with
    | error e => rw [hat] at h; exact absurd h (by simp [Except.map])
    | ok pr =>
      obtain ⟨w3, s3⟩ := pr
      rw [hat] at h
      simp only [Except.map, Except.ok.injEq] at h
      obtain ⟨tx, hsh⟩ := addText_ok_shape w s n x y t w3 s3 hat
      rw [← h, hsh]
      simp only [opPreserves]
      rw [elems_setTexts, elems_decomp w, List.filterMap_append]
      have htx : (([some tx] : List (Option Text)).filterMap
          (fun o => o.map Text.elemRecord)) = [tx.elemRecord] := by simp
      rw [htx, List.append_assoc]
      exact List.Sublist.cons₂ _ ((List.sublist_append_right _ _).append_left _)
  | removeText n =>
    simp only [applyOp] at h
    cases hrt : w.removeText s n with
    | error e => rw [hrt] at h; exact absurd h (by simp [Except.map])
    | ok pr =>
      obtain ⟨w3, s3⟩ := pr
      rw [hrt] at h
      simp only [Except.map, Except.ok.injEq] at h
      have hkeep := removeText_keeps_only_existing w s n w3 s3 hrt
      have hsh := removeText_ok_shape w s n w3 s3 hrt
      rw [← h]
      simp only [opPreserves]
      rw [hsh, elems_setTexts, elems_decomp w]
      intro e he
      rcases List.mem_cons.mp he with rfl | he2
      · exact List.mem_cons_self _ _
      · rcases List.mem_append.mp he2 with h1 | h2
        · obtain ⟨o, ho, hoe⟩ := List.mem_filterMap.mp h1
          obtain ⟨t0, rfl, hrec⟩ := Option.map_eq_some'.mp hoe
          have ht0 : some t0 ∈ w.texts := hkeep t0 (by
            rw [hsh, Window.texts_setTexts]
            exact ho)
          refine List.mem_cons_of_mem _ (List.mem_append_left _ ?_)
          exact List.mem_filterMap.mpr ⟨some t0, ht0, by simp [hrec]⟩
        · exact List.mem_cons_of_mem _ (List.mem_append_right _ h2)

mutual

/-- Applying an operation anywhere below a window preserves the
window's existing element records per opPreserves. -/
theorem applyAt_preserves : ∀ (path : List Nat) (w : Window) (s : Surface) (op : Op)
    (w2 : Window), applyAt w s path op = Except.ok w2 →
    opPreserves op (elems w) (elems w2)
  | [], w, s, op, w2, h => applyOp_preserves w s op w2 (by
      rw [show applyAt w s [] op = applyOp w s op from by simp [applyAt]] at h
      exact h)
  | i :: p, w, s, op, w2, h => by
    rw [show applyAt w s (i :: p) op =
        (applyAtChildren w.subwindows s i p op).map (fun subs2 => w.setSubwindows subs2)
      from by simp [applyAt]] at h
    cases hac : applyAtChildren w.subwindows s i p op with
    | error e => rw [hac] at h; exact absurd h (by simp [Except.map])
    | ok subs2 =>
      rw [hac] at h
      simp only [Except.map, Except.ok.injEq] at h
      rw [← h, elems_decomp w, elems_setSubwindows]
      exact opPreserves_cons_append op _ _ _ _
        (applyAtChildren_preserves w.subwindows s i p op subs2 hac)
termination_by path w s op w2 h => (path.length, 0)

/-- Applying an operation below the i-th window of a list preserves
the list's existing element records per opPreserves. -/
theorem applyAtChildren_preserves : ∀ (l : List Window) (s : Surface) (i : Nat)
    (p : List Nat) (op : Op) (l2 : List Window),
    applyAtChildren l s i p op = Except.ok l2 →
    opPreserves op (elemsList l) (elemsList l2)
  | [], s, i, p, op, l2, h => by
    rw [show applyAtChildren ([] : List Window) s i p op =
        Except.error "no window at this path" from by simp [applyAtChildren]] at h
    exact absurd h (by simp)
  | c :: rest, s, 0, p, op, l2, h => by
    rw [show applyAtChildren (c :: rest) s 0 p op =
        (applyAt c s p op).map (fun c2 => c2 :: rest) from by
      simp [applyAtChildren]] at h
    cases haa : applyAt c s p op with
    | error e => rw [haa] at h; exact absurd h (by simp [Except.map])
    | ok c2 =>
      rw [haa] at h
      simp only [Except.map, Except.ok.injEq] at h
      rw [← h,
        show elemsList (c :: rest) = elems c ++ elemsList rest from by simp [elemsList],
        show elemsList (c2 :: rest) = elems c2 ++ elemsList rest from by simp [elemsList]]
      exact opPreserves_append_right op _ _ _ (applyAt_preserves p c s op c2 haa)
  | c :: rest, s, i + 1, p, op, l2, h => by
    rw [show applyAtChildren (c :: rest) s (i + 1) p op =
        (applyAtChildren rest s i p op).map (fun rest2 => c :: rest2) from by
      simp [applyAtChildren]] at h
    cases hac : applyAtChildren rest s i p op with
    | error e => rw [hac] at h; exact absurd h (by simp [Except.map])
    | ok rest2 =>
      rw [hac] at h
      simp only [Except.map, Except.ok.injEq] at h
      rw [← h,
        show elemsList (c :: rest) = elems c ++ elemsList rest from by simp [elemsList],
        show elemsList (c :: rest2) = elems c ++ elemsList rest2 from by
          simp [elemsList]]
      exact opPreserves_append_left op _ _ _
        (applyAtChildren_preserves rest s i p op rest2 hac)
termination_by l s i p op l2 h => (p.length, l.length + 1)

end

/-- C10.  Name, coordinate and footprint of every element are fixed
at construction and preserved by every operation: applying
createWindow, addText, removeText or update to any window of the tree
(addressed by a path of child indices) leaves the records
(name, x, y, rows, cols) of all previously existing windows and live
texts unchanged — the adds extend the record list keeping every old
record in place and order, removeText only drops records (every
surviving record was already present verbatim), update changes
nothing. -/
theorem operations_preserve_existing_elements
    (w : Window) (s : Surface) (path : List Nat) (op : Op) (w2 : Window)
    (h : applyAt w s path op = Except.ok w2) :
    (∀ n x y r c b, op = Op.createWindow n x y r c b →
      List.Sublist (elems w) (elems w2)) ∧
    (∀ n x y t, op = Op.addText n x y t → List.Sublist (elems w) (elems w2)) ∧
    (∀ n, op = Op.removeText n → ∀ e ∈ elems w2, e ∈ elems w) ∧
    (op = Op.update → elems w2 = elems w) := by
  have hp := applyAt_preserves path w s op w2 h
  exact ⟨fun n x y r c b hop => by rw [hop] at hp; exact hp,
    fun n x y t hop => by rw [hop] at hp; exact hp,
    fun n hop => by rw [hop] at hp; exact hp,
    fun hop => by rw [hop] at hp; exact hp⟩

/-- Concrete tree before the C10 witness operation. -/
def c10Before : Window :=
  Window.mk "stdscr" 0 0 false 10 10 [Window.mk "child" 1 1 false 4 4 [] []] []

/-- Concrete tree after addText("t", 0, 0, "hi") at the root. -/
def c10After : Window :=
  Window.mk "stdscr" 0 0 false 10 10 [Window.mk "child" 1 1 false 4 4 [] []]
    [some (Text.mk "t" 0 0 "hi")]

/-- C10 witness: a concrete addText at the tree root keeps every
existing element record. -/
theorem operations_preserve_existing_elements_witness :
    List.Sublist (elems c10Before) (elems c10After) :=
  (operations_preserve_existing_elements c10Before blankSurface []
      (Op.addText "t" 0 0 "hi") c10After (by
        rw [show applyAt c10Before blankSurface [] (Op.addText "t" 0 0 "hi") =
            applyOp c10Before blankSurface (Op.addText "t" 0 0 "hi") from by
          simp [applyAt]]
        rfl)).2.1 "t" 0 0 "hi" rfl
